import Mathlib

/-!
# Vendor-Connect: verification of the group-order aggregator,
# order-number sequencing and bulk pricing

Shallow embedding of the relevant parts of the Vendor-Connect backend:

* `src/backend/models/GroupOrder.js` — the `addParticipant` /
  `removeParticipant` instance methods and the status fields they touch;
* `src/backend/models/Order.js` — the `orderSchema.pre('save')` hook that
  assigns `orderNumber`;
* the `Product` model — the `getBulkPrice` instance method.

JavaScript numbers used as quantities are modelled as `Int`; prices and
discount percentages as `ℚ`; JavaScript strings as `List Char` (the
relevant strings are ASCII, so MongoDB's byte order coincides with
character-code order).
-/

namespace VendorConnect

/-- The `status` enum of `groupOrderSchema`:
`['active', 'target_reached', 'ordered', 'delivered', 'cancelled']`. -/
inductive GStatus
  | active
  | target_reached
  | ordered
  | delivered
  | cancelled
  deriving DecidableEq, Repr

/-- One element of the `participants` array of `groupOrderSchema`:
a vendor id (already `.toString()`-ed) and the participant's quantity.
The `joinedAt` timestamp plays no role in any method modelled here. -/
structure Participant where
  vendor : String
  quantity : Int
  deriving DecidableEq, Repr

/-- The fields of a `GroupOrder` document that the `addParticipant` and
`removeParticipant` methods read or write, plus the `deadline` and
`maxParticipants` fields used by the join preconditions. -/
structure GroupOrder where
  targetQuantity : Int
  currentQuantity : Int
  maxParticipants : Nat
  participants : List Participant
  status : GStatus
  deadline : Int
  deriving DecidableEq, Repr

/-- Sum of the quantities of a participant list. -/
def sumQuantities : List Participant → Int
  | [] => 0
  | p :: ps => p.quantity + sumQuantities ps

/-- `participants.find(p => p.vendor.toString() === vendorId.toString())`
followed by `existingParticipant.quantity += quantity`: add `q` to the
quantity of the first entry whose vendor is `v`, leaving the rest alone. -/
def addQtyToFirst (v : String) (q : Int) : List Participant → List Participant
  | [] => []
  | p :: ps =>
    if p.vendor = v then { p with quantity := p.quantity + q } :: ps
    else p :: addQtyToFirst v q ps

/-- Whether some entry of the list has vendor `v` (the `find` test). -/
def hasVendor (ps : List Participant) (v : String) : Bool :=
  ps.any (fun p => p.vendor = v)

/-- `groupOrderSchema.methods.addParticipant` (GroupOrder.js, lines
129-148): accumulate into an existing entry or push a new one, bump
`currentQuantity`, and set `status = 'target_reached'` when the new
quantity reaches the target while the status is `'active'`. -/
def addParticipant (g : GroupOrder) (vendorId : String) (quantity : Int) :
    GroupOrder :=
  let participants' :=
    if hasVendor g.participants vendorId then
      addQtyToFirst vendorId quantity g.participants
    else
      g.participants ++ [{ vendor := vendorId, quantity := quantity }]
  let currentQuantity' := g.currentQuantity + quantity
  let status' :=
    if currentQuantity' ≥ g.targetQuantity ∧ g.status = GStatus.active then
      GStatus.target_reached
    else g.status
  { g with participants := participants',
           currentQuantity := currentQuantity',
           status := status' }

/-- `participants.findIndex(...)` followed by `splice(index, 1)`: remove
the first entry whose vendor is `v`, returning its quantity and the
remaining list, or `none` when no entry matches (`findIndex === -1`). -/
def removeFirst (v : String) : List Participant →
    Option (Int × List Participant)
  | [] => none
  | p :: ps =>
    if p.vendor = v then some (p.quantity, ps)
    else (removeFirst v ps).map (fun r => (r.1, p :: r.2))

/-- `groupOrderSchema.methods.removeParticipant` (GroupOrder.js, lines
151-164): splice out the first matching entry, subtract its quantity from
`currentQuantity`, and reset `status = 'active'` when the quantity drops
below target while the status is `'target_reached'`; a vendor with no
entry leaves the document untouched. -/
def removeParticipant (g : GroupOrder) (vendorId : String) : GroupOrder :=
  match removeFirst vendorId g.participants with
  | none => g
  | some (removedQuantity, participants') =>
    let currentQuantity' := g.currentQuantity - removedQuantity
    let status' :=
      if currentQuantity' < g.targetQuantity ∧
          g.status = GStatus.target_reached then
        GStatus.active
      else g.status
    { g with participants := participants',
             currentQuantity := currentQuantity',
             status := status' }

/-- The quantity-consistency invariant of the spec:
`currentQuantity == Σ participants[v].quantity`. -/
def QuantityInv (g : GroupOrder) : Prop :=
  g.currentQuantity = sumQuantities g.participants

instance (g : GroupOrder) : Decidable (QuantityInv g) := by
  unfold QuantityInv; infer_instance

lemma sumQuantities_append (xs ys : List Participant) :
    sumQuantities (xs ++ ys) = sumQuantities xs + sumQuantities ys := by
  induction xs with
  | nil => simp [sumQuantities]
  | cons p ps ih => simp [sumQuantities, ih]; ring

lemma sumQuantities_addQtyToFirst (v : String) (q : Int)
    (ps : List Participant) (h : hasVendor ps v = true) :
    sumQuantities (addQtyToFirst v q ps) = sumQuantities ps + q := by
  induction ps with
  | nil => simp [hasVendor] at h
  | cons p ps ih =>
    by_cases hv : p.vendor = v
    · simp [addQtyToFirst, hv, sumQuantities]; ring
    · have h' : hasVendor ps v = true := by
        simpa [hasVendor, hv] using h
      simp [addQtyToFirst, hv, sumQuantities, ih h']; ring

lemma sumQuantities_removeFirst (v : String) (ps : List Participant)
    (q : Int) (ps' : List Participant)
    (h : removeFirst v ps = some (q, ps')) :
    sumQuantities ps' = sumQuantities ps - q := by
  induction ps generalizing ps' with
  | nil => simp [removeFirst] at h
  | cons p rest ih =>
    by_cases hv : p.vendor = v
    · simp [removeFirst, hv] at h
      obtain ⟨hq, hps⟩ := h
      subst hq; subst hps
      simp [sumQuantities]
    · simp [removeFirst, hv] at h
      obtain ⟨r, rest', hrec, hq, hps⟩ := h
      subst hq
      subst hps
      simp [sumQuantities, ih rest' hrec]
      ring

lemma length_addQtyToFirst (v : String) (q : Int) (ps : List Participant) :
    (addQtyToFirst v q ps).length = ps.length := by
  induction ps with
  | nil => rfl
  | cons p rest ih =>
    by_cases hv : p.vendor = v <;> simp [addQtyToFirst, hv, ih]

lemma map_vendor_addQtyToFirst (v : String) (q : Int)
    (ps : List Participant) :
    (addQtyToFirst v q ps).map Participant.vendor =
      ps.map Participant.vendor := by
  induction ps with
  | nil => rfl
  | cons p rest ih =>
    by_cases hv : p.vendor = v <;> simp [addQtyToFirst, hv, ih]

/-- Number of distinct vendor ids among the participants. -/
def distinctVendorCount (g : GroupOrder) : Nat :=
  ((g.participants.map Participant.vendor).dedup).length

/-- The error taxonomy of the spec that `join`/`leave` can surface
(§7); `ValidationError` stands for the unnamed "malformed quantity"
validation rejection. -/
inductive GError
  | OrderClosed
  | DeadlinePassed
  | CapacityExceeded
  | NotAParticipant
  | OrderLocked
  | ValidationError
  deriving DecidableEq, Repr

/-- Modelled from the spec: the join handler of `routes/groupOrders.js`
is required by `server.js` but its file is not part of the sources under
review; its precondition checks are taken from §4.2 of the spec
("Preconditions: `status == active`, `now < deadline`, `quantity >= 1`";
"Fails with `OrderClosed` if status is not `active`; `DeadlinePassed` if
past deadline; `CapacityExceeded` if a new vendor would exceed
`maxParticipants`"), checked in the order the spec lists them and before
any mutation; the successful mutation itself is the source method
`addParticipant`. -/
def join (g : GroupOrder) (vendorId : String) (quantity : Int)
    (now : Int) : Except GError GroupOrder :=
  if g.status ≠ GStatus.active then Except.error GError.OrderClosed
  else if ¬ now < g.deadline then Except.error GError.DeadlinePassed
  else if quantity < 1 then Except.error GError.ValidationError
  else if hasVendor g.participants vendorId = false ∧
      g.participants.length ≥ g.maxParticipants then
    Except.error GError.CapacityExceeded
  else Except.ok (addParticipant g vendorId quantity)

/-- Modelled from the spec: the leave handler of `routes/groupOrders.js`
(file not part of the sources under review); precondition checks from
§4.2 ("Fails with `NotAParticipant` if vendor has no entry; `OrderLocked`
if status is `ordered`/`delivered`/`cancelled`"), in the spec's order and
before any mutation; the successful mutation is the source method
`removeParticipant`. -/
def leave (g : GroupOrder) (vendorId : String) :
    Except GError GroupOrder :=
  if hasVendor g.participants vendorId = false then
    Except.error GError.NotAParticipant
  else if g.status = GStatus.ordered ∨ g.status = GStatus.delivered ∨
      g.status = GStatus.cancelled then
    Except.error GError.OrderLocked
  else Except.ok (removeParticipant g vendorId)

/-- The state the store holds after an operation: the new record on
success, the untouched previous record on failure (the spec's "no partial
state is ever written for a request that fails precondition checks"). -/
def persisted (g : GroupOrder) : Except GError GroupOrder → GroupOrder
  | Except.ok g' => g'
  | Except.error _ => g

/-! ## Product model: bulk pricing -/

/-- One element of the `bulkDiscounts` array of `productSchema`. -/
structure BulkDiscount where
  minQuantity : ℚ
  discountPercentage : ℚ
  deriving DecidableEq, Repr

/-- The fields of a `Product` document that `getBulkPrice` reads. -/
structure Product where
  price : ℚ
  bulkDiscounts : List BulkDiscount
  deriving DecidableEq, Repr

/-- The loop of `productSchema.methods.getBulkPrice`: fold over
`bulkDiscounts`, replacing the accumulator whenever
`quantity >= discount.minQuantity && discount.discountPercentage >
applicableDiscount`. -/
def applicableDiscount (p : Product) (quantity : ℚ) : ℚ :=
  p.bulkDiscounts.foldl
    (fun acc d =>
      if d.minQuantity ≤ quantity ∧ acc < d.discountPercentage then
        d.discountPercentage
      else acc)
    0

/-- `productSchema.methods.getBulkPrice`:
`this.price * (1 - applicableDiscount / 100)`. -/
def getBulkPrice (p : Product) (quantity : ℚ) : ℚ :=
  p.price * (1 - applicableDiscount p quantity / 100)

lemma foldl_discount_le_acc (ds : List BulkDiscount) (q acc : ℚ) :
    acc ≤ ds.foldl
      (fun acc d =>
        if d.minQuantity ≤ q ∧ acc < d.discountPercentage then
          d.discountPercentage
        else acc) acc := by
  induction ds generalizing acc with
  | nil => simp
  | cons d rest ih =>
    by_cases h : d.minQuantity ≤ q ∧ acc < d.discountPercentage
    · calc acc ≤ d.discountPercentage := le_of_lt h.2
        _ ≤ _ := by simpa [List.foldl, h] using ih d.discountPercentage
    · simpa [List.foldl, h] using ih acc

lemma foldl_discount_le_hundred (ds : List BulkDiscount) (q acc : ℚ)
    (hds : ∀ d ∈ ds, d.discountPercentage ≤ 100) (hacc : acc ≤ 100) :
    ds.foldl
      (fun acc d =>
        if d.minQuantity ≤ q ∧ acc < d.discountPercentage then
          d.discountPercentage
        else acc) acc ≤ 100 := by
  induction ds generalizing acc with
  | nil => simpa
  | cons d rest ih =>
    by_cases h : d.minQuantity ≤ q ∧ acc < d.discountPercentage
    · simp only [List.foldl, if_pos h]
      exact ih d.discountPercentage
        (fun d' hd' => hds d' (List.mem_cons_of_mem _ hd'))
        (hds d (List.mem_cons_self _ _))
    · simp only [List.foldl, if_neg h]
      exact ih acc (fun d' hd' => hds d' (List.mem_cons_of_mem _ hd')) hacc

lemma foldl_discount_mono (ds : List BulkDiscount) (q₁ q₂ acc₁ acc₂ : ℚ)
    (hq : q₁ ≤ q₂) (hacc : acc₁ ≤ acc₂) :
    ds.foldl
      (fun acc d =>
        if d.minQuantity ≤ q₁ ∧ acc < d.discountPercentage then
          d.discountPercentage
        else acc) acc₁ ≤
    ds.foldl
      (fun acc d =>
        if d.minQuantity ≤ q₂ ∧ acc < d.discountPercentage then
          d.discountPercentage
        else acc) acc₂ := by
  induction ds generalizing acc₁ acc₂ with
  | nil => simpa
  | cons d rest ih =>
    simp only [List.foldl]
    apply ih
    by_cases h1 : d.minQuantity ≤ q₁ ∧ acc₁ < d.discountPercentage
    · rw [if_pos h1]
      have h2 : d.minQuantity ≤ q₂ := le_trans h1.1 hq
      by_cases h2' : acc₂ < d.discountPercentage
      · rw [if_pos ⟨h2, h2'⟩]
      · rw [if_neg (by tauto)]
        exact le_of_not_lt h2'
    · rw [if_neg h1]
      by_cases h2 : d.minQuantity ≤ q₂ ∧ acc₂ < d.discountPercentage
      · rw [if_pos h2]
        exact le_trans hacc (le_of_lt h2.2)
      · rw [if_neg h2]
        exact hacc

lemma applicableDiscount_nonneg (p : Product) (q : ℚ) :
    0 ≤ applicableDiscount p q :=
  foldl_discount_le_acc p.bulkDiscounts q 0

lemma applicableDiscount_le_hundred (p : Product) (q : ℚ)
    (hds : ∀ d ∈ p.bulkDiscounts, d.discountPercentage ≤ 100) :
    applicableDiscount p q ≤ 100 :=
  foldl_discount_le_hundred p.bulkDiscounts q 0 hds (by norm_num)

lemma applicableDiscount_mono (p : Product) (q₁ q₂ : ℚ) (hq : q₁ ≤ q₂) :
    applicableDiscount p q₁ ≤ applicableDiscount p q₂ :=
  foldl_discount_mono p.bulkDiscounts q₁ q₂ 0 0 hq le_rfl

lemma foldl_discount_no_min (ds : List BulkDiscount) (q acc : ℚ)
    (h : ∀ d ∈ ds, q < d.minQuantity) :
    ds.foldl
      (fun acc d =>
        if d.minQuantity ≤ q ∧ acc < d.discountPercentage then
          d.discountPercentage
        else acc) acc = acc := by
  induction ds generalizing acc with
  | nil => rfl
  | cons d rest ih =>
    have hd : ¬ d.minQuantity ≤ q := not_le.mpr (h d (List.mem_cons_self _ _))
    simp only [List.foldl, if_neg (by tauto : ¬ (d.minQuantity ≤ q ∧
      acc < d.discountPercentage))]
    exact ih acc (fun d' hd' => h d' (List.mem_cons_of_mem _ hd'))

lemma applicableDiscount_eq_zero (p : Product) (q : ℚ)
    (h : ∀ d ∈ p.bulkDiscounts, q < d.minQuantity) :
    applicableDiscount p q = 0 :=
  foldl_discount_no_min p.bulkDiscounts q 0 h

/-! ## Order model: the `orderNumber` pre-save hook

JavaScript strings are modelled as `List Char`; the strings involved are
ASCII, so MongoDB's byte-wise descending sort agrees with the
character-code lexicographic order `listLtCh` below. -/

/-- The decimal digit character for `d` (`0 ≤ d ≤ 9`), as produced by
JavaScript `Number.prototype.toString`. -/
def dchar (d : Nat) : Char := Char.ofNat (48 + d)

/-- Decimal digit characters of `n`, most significant first, computed
with explicit fuel (structural recursion; `fuel > n` is always enough).
This is JavaScript `n.toString()` for a natural `n`. -/
def natDigitsF : Nat → Nat → List Char
  | 0, _ => []
  | fuel + 1, n =>
    if n < 10 then [dchar n]
    else natDigitsF fuel (n / 10) ++ [dchar (n % 10)]

/-- JavaScript `n.toString()` for a natural number `n`. -/
def natDigits (n : Nat) : List Char := natDigitsF (n + 1) n

/-- JavaScript `String.prototype.padStart(len, c)`. -/
def padStartCh (l : List Char) (len : Nat) (c : Char) : List Char :=
  List.replicate (len - l.length) c ++ l

/-- `(x).toString().padStart(2, '0')` as used for month and day. -/
def pad2 (n : Nat) : List Char := padStartCh (natDigits n) 2 '0'

/-- `sequence.toString().padStart(4, '0')`. -/
def pad4 (n : Nat) : List Char := padStartCh (natDigits n) 4 '0'

/-- The `dateStr` of the pre-save hook:
`getFullYear() + (getMonth()+1).padStart(2,'0') + getDate().padStart(2,'0')`;
`month` here is the 1-based calendar month (the hook's `getMonth() + 1`).
-/
def dateStr (year month day : Nat) : List Char :=
  natDigits year ++ pad2 month ++ pad2 day

/-- Whether `p` occurs at the start of `s` (the `^...` anchored regex
test `new RegExp` performs in the hook's `findOne` filter). -/
def startsWithCh : List Char → List Char → Bool
  | [], _ => true
  | _ :: _, [] => false
  | a :: as, b :: bs => a = b && startsWithCh as bs

/-- Byte-wise (character-code) lexicographic strict order on strings —
the order MongoDB uses for `sort({ orderNumber: -1 })` on these ASCII
strings. -/
def listLtCh : List Char → List Char → Bool
  | _, [] => false
  | [], _ :: _ => true
  | a :: as, b :: bs =>
    if a.toNat < b.toNat then true
    else if b.toNat < a.toNat then false
    else listLtCh as bs

/-- `parseInt` on a string of decimal digits. -/
def parseDigits (l : List Char) : Nat :=
  l.foldl (fun acc c => acc * 10 + (c.toNat - 48)) 0

/-- The best (sort-descending first) element of a list of strings:
models `findOne(...).sort({ orderNumber: -1 })` over the matching set. -/
def maxString (l : List (List Char)) : Option (List Char) :=
  l.foldl
    (fun acc s =>
      match acc with
      | none => some s
      | some t => if listLtCh t s then some s else some t)
    none

/-- The order number `` `VC${dateStr}${sequence.toString().padStart(4, '0')}` ``. -/
def fmtOrderNumber (dStr : List Char) (sequence : Nat) : List Char :=
  'V' :: 'C' :: dStr ++ pad4 sequence

/-- `orderSchema.pre('save')` (Order.js, lines 128-149), as a function of
the snapshot of order numbers already persisted (`existing`), the day
string, and the document's current `orderNumber` (`none` models the
falsy/absent case of `if (!this.orderNumber)`): returns the
`orderNumber` the document has after the hook runs. -/
def preSaveOrderNumber (existing : List (List Char)) (dStr : List Char)
    (cur : Option (List Char)) : List Char :=
  match cur with
  | some s => s
  | none =>
    let matching :=
      existing.filter (fun s => startsWithCh ('V' :: 'C' :: dStr) s)
    let lastOrder := maxString matching
    let sequence :=
      match lastOrder with
      | none => 1
      | some lo => parseDigits (lo.drop (lo.length - 4)) + 1
    fmtOrderNumber dStr sequence

/-- Two concurrent saves whose `findOne` both ran against the same store
snapshot (the read-read-write-write interleaving the hook admits, since
the read-highest-then-assign step is not atomic): each hook computes its
number from the same `existing` list. -/
def concurrentPreSavePair (existing : List (List Char))
    (dStr : List Char) : List Char × List Char :=
  (preSaveOrderNumber existing dStr none,
   preSaveOrderNumber existing dStr none)

/-! ## Arithmetic facts about decimal digit strings -/

/-- `parseInt` continued from an accumulator (the loop state of
`parseDigits`). -/
def parseFrom (acc : Nat) (l : List Char) : Nat :=
  l.foldl (fun a c => a * 10 + (c.toNat - 48)) acc

lemma parseDigits_eq_parseFrom (l : List Char) :
    parseDigits l = parseFrom 0 l := rfl

lemma dchar_toNat (d : Nat) (h : d ≤ 9) : (dchar d).toNat = 48 + d := by
  interval_cases d <;> decide

lemma parseFrom_eq (xs : List Char) (acc : Nat) :
    parseFrom acc xs = acc * 10 ^ xs.length + parseDigits xs := by
  induction xs generalizing acc with
  | nil => simp [parseFrom, parseDigits]
  | cons c xs ih =>
    have hcons : ∀ a, parseFrom a (c :: xs) =
        parseFrom (a * 10 + (c.toNat - 48)) xs := by
      intro a; rfl
    have h2 : parseDigits (c :: xs) =
        (c.toNat - 48) * 10 ^ xs.length + parseDigits xs := by
      rw [parseDigits_eq_parseFrom, hcons 0, ih]
      simp
    rw [hcons acc, ih, h2, List.length_cons, pow_succ]
    ring

lemma parseDigits_cons (c : Char) (xs : List Char) :
    parseDigits (c :: xs) =
      (c.toNat - 48) * 10 ^ xs.length + parseDigits xs := by
  rw [parseDigits_eq_parseFrom]
  have : parseFrom 0 (c :: xs) = parseFrom (c.toNat - 48) xs := by
    simp [parseFrom]
  rw [this, parseFrom_eq]

lemma parseFrom_append (acc : Nat) (xs ys : List Char) :
    parseFrom acc (xs ++ ys) = parseFrom (parseFrom acc xs) ys := by
  simp [parseFrom, List.foldl_append]

lemma parseDigits_lt (xs : List Char)
    (h : ∀ c ∈ xs, 48 ≤ c.toNat ∧ c.toNat ≤ 57) :
    parseDigits xs < 10 ^ xs.length := by
  suffices H : ∀ (xs : List Char) (acc B : Nat),
      (∀ c ∈ xs, 48 ≤ c.toNat ∧ c.toNat ≤ 57) → acc < B →
      parseFrom acc xs < B * 10 ^ xs.length by
    simpa using H xs 0 1 h (by norm_num)
  intro xs
  induction xs with
  | nil => intro acc B _ hacc; simpa [parseFrom] using hacc
  | cons c rest ih =>
    intro acc B hdig hacc
    have hc := hdig c (List.mem_cons_self _ _)
    have hstep : parseFrom acc (c :: rest) =
        parseFrom (acc * 10 + (c.toNat - 48)) rest := rfl
    rw [hstep]
    have h1 : acc * 10 + (c.toNat - 48) < B * 10 := by omega
    have := ih (acc * 10 + (c.toNat - 48)) (B * 10)
      (fun c' hc' => hdig c' (List.mem_cons_of_mem _ hc')) h1
    calc parseFrom (acc * 10 + (c.toNat - 48)) rest
        < B * 10 * 10 ^ rest.length := this
      _ = B * 10 ^ (c :: rest).length := by
          simp [List.length_cons, pow_succ]; ring

lemma natDigitsF_digits (fuel n : Nat) (h : n < fuel) :
    ∀ c ∈ natDigitsF fuel n, 48 ≤ c.toNat ∧ c.toNat ≤ 57 := by
  induction fuel generalizing n with
  | zero => omega
  | succ fuel ih =>
    intro c hc
    by_cases h10 : n < 10
    · simp only [natDigitsF, if_pos h10, List.mem_singleton] at hc
      subst hc
      rw [dchar_toNat n (by omega)]
      omega
    · simp only [natDigitsF, if_neg h10, List.mem_append,
        List.mem_singleton] at hc
      rcases hc with hc | hc
      · have hdiv : n / 10 < fuel := by
          have := Nat.div_lt_self (by omega : 0 < n) (by norm_num : 1 < 10)
          omega
        exact ih (n / 10) hdiv c hc
      · subst hc
        rw [dchar_toNat (n % 10) (by omega)]
        omega

lemma natDigitsF_parse (fuel n : Nat) (h : n < fuel) :
    parseDigits (natDigitsF fuel n) = n := by
  induction fuel generalizing n with
  | zero => omega
  | succ fuel ih =>
    by_cases h10 : n < 10
    · simp only [natDigitsF, if_pos h10]
      rw [parseDigits_cons]
      simp [parseDigits, parseFrom, dchar_toNat n (by omega)]
    · simp only [natDigitsF, if_neg h10]
      have hdiv : n / 10 < fuel := by
        have := Nat.div_lt_self (by omega : 0 < n) (by norm_num : 1 < 10)
        omega
      rw [parseDigits_eq_parseFrom, parseFrom_append,
        ← parseDigits_eq_parseFrom, ih (n / 10) hdiv]
      have : parseFrom (n / 10) [dchar (n % 10)] =
          (n / 10) * 10 + (n % 10) := by
        simp [parseFrom, dchar_toNat (n % 10) (by omega)]
      rw [this]
      omega

lemma natDigitsF_ne_nil (fuel n : Nat) (h : n < fuel) :
    natDigitsF fuel n ≠ [] := by
  cases fuel with
  | zero => omega
  | succ fuel =>
    by_cases h10 : n < 10 <;> simp [natDigitsF, h10]

lemma natDigitsF_length_le (fuel n k : Nat) (hfuel : n < fuel)
    (hk : 1 ≤ k) (h : n < 10 ^ k) :
    (natDigitsF fuel n).length ≤ k := by
  induction fuel generalizing n k with
  | zero => omega
  | succ fuel ih =>
    by_cases h10 : n < 10
    · simp [natDigitsF, h10]; omega
    · simp only [natDigitsF, if_neg h10, List.length_append,
        List.length_singleton]
      have hdiv : n / 10 < fuel := by
        have := Nat.div_lt_self (by omega : 0 < n) (by norm_num : 1 < 10)
        omega
      have hk2 : 2 ≤ k := by
        by_contra hcon
        have hk1 : k = 1 := by omega
        subst hk1
        simp at h
        omega
      have hlt : n / 10 < 10 ^ (k - 1) := by
        have h1 : n < 10 ^ k := h
        have h2 : 10 ^ k = 10 ^ (k - 1) * 10 := by
          conv_lhs => rw [show k = (k - 1) + 1 by omega]
          rw [pow_succ]
        rw [h2] at h1
        exact Nat.div_lt_of_lt_mul (by omega)
      have := ih (n / 10) (k - 1) hdiv (by omega) hlt
      omega

lemma natDigitsF_length_ge (fuel n k : Nat) (hfuel : n < fuel)
    (h : 10 ^ k ≤ n) :
    k + 1 ≤ (natDigitsF fuel n).length := by
  induction fuel generalizing n k with
  | zero => omega
  | succ fuel ih =>
    by_cases h10 : n < 10
    · have hk : k = 0 := by
        by_contra hcon
        have : 10 ≤ 10 ^ k := by
          calc (10 : Nat) = 10 ^ 1 := (pow_one 10).symm
            _ ≤ 10 ^ k := Nat.pow_le_pow_right (by norm_num) (by omega)
        omega
      subst hk
      simp [natDigitsF, h10]
    · simp only [natDigitsF, if_neg h10, List.length_append,
        List.length_singleton]
      have hdiv : n / 10 < fuel := by
        have := Nat.div_lt_self (by omega : 0 < n) (by norm_num : 1 < 10)
        omega
      cases k with
      | zero =>
        have := natDigitsF_ne_nil fuel (n / 10) hdiv
        have : 1 ≤ (natDigitsF fuel (n / 10)).length :=
          List.length_pos.mpr this
        omega
      | succ k' =>
        have hge : 10 ^ k' ≤ n / 10 := by
          rw [Nat.le_div_iff_mul_le (by norm_num : 0 < 10)]
          calc 10 ^ k' * 10 = 10 ^ (k' + 1) := (pow_succ 10 k').symm
            _ ≤ n := h
        have := ih (n / 10) k' hdiv hge
        omega

lemma natDigits_length_eq (n k : Nat) (hk : 1 ≤ k)
    (hlo : 10 ^ (k - 1) ≤ n) (hhi : n < 10 ^ k) :
    (natDigits n).length = k := by
  have h1 := natDigitsF_length_le (n + 1) n k (by omega) hk hhi
  have h2 := natDigitsF_length_ge (n + 1) n (k - 1) (by omega) hlo
  unfold natDigits
  omega

lemma pad4_length (n : Nat) (h : n ≤ 9999) : (pad4 n).length = 4 := by
  have hle : (natDigits n).length ≤ 4 :=
    natDigitsF_length_le (n + 1) n 4 (by omega) (by norm_num)
      (by norm_num; omega)
  unfold pad4 padStartCh
  simp [List.length_replicate]
  omega

lemma pad4_digits (n : Nat) (h : n ≤ 9999) :
    ∀ c ∈ pad4 n, 48 ≤ c.toNat ∧ c.toNat ≤ 57 := by
  intro c hc
  unfold pad4 padStartCh at hc
  rw [List.mem_append] at hc
  rcases hc with hc | hc
  · have := List.eq_of_mem_replicate hc
    subst this
    decide
  · exact natDigitsF_digits (n + 1) n (by omega) c hc

lemma parseFrom_replicate_zero (k : Nat) :
    parseFrom 0 (List.replicate k '0') = 0 := by
  induction k with
  | zero => rfl
  | succ k ih =>
    rw [List.replicate_succ]
    have : parseFrom 0 ('0' :: List.replicate k '0') =
        parseFrom 0 (List.replicate k '0') := by
      simp [parseFrom]
    rw [this, ih]

lemma parseDigits_pad4 (n : Nat) (h : n ≤ 9999) :
    parseDigits (pad4 n) = n := by
  unfold pad4 padStartCh
  rw [parseDigits_eq_parseFrom, parseFrom_append, parseFrom_replicate_zero,
    ← parseDigits_eq_parseFrom]
  exact natDigitsF_parse (n + 1) n (by omega)

/-! ## The lexicographic order versus numeric value -/

lemma listLtCh_append_left (p u v : List Char) :
    listLtCh (p ++ u) (p ++ v) = listLtCh u v := by
  induction p with
  | nil => rfl
  | cons a p ih =>
    simp only [List.cons_append, listLtCh]
    rw [if_neg (lt_irrefl _), if_neg (lt_irrefl _)]
    exact ih

lemma listLtCh_iff_parse_lt (xs ys : List Char)
    (hlen : xs.length = ys.length)
    (hx : ∀ c ∈ xs, 48 ≤ c.toNat ∧ c.toNat ≤ 57)
    (hy : ∀ c ∈ ys, 48 ≤ c.toNat ∧ c.toNat ≤ 57) :
    (listLtCh xs ys = true ↔ parseDigits xs < parseDigits ys) := by
  induction xs generalizing ys with
  | nil =>
    cases ys with
    | nil => simp [listLtCh, parseDigits, parseFrom]
    | cons y ys => simp at hlen
  | cons x xs ih =>
    cases ys with
    | nil => simp at hlen
    | cons y ys =>
      have hlen' : xs.length = ys.length := by simpa using hlen
      have hxc := hx x (List.mem_cons_self _ _)
      have hyc := hy y (List.mem_cons_self _ _)
      have hxs := fun c hc => hx c (List.mem_cons_of_mem _ hc)
      have hys := fun c hc => hy c (List.mem_cons_of_mem _ hc)
      have hpx := parseDigits_lt xs hxs
      have hpy := parseDigits_lt ys hys
      rw [parseDigits_cons, parseDigits_cons, hlen']
      by_cases h1 : x.toNat < y.toNat
      · simp only [listLtCh, if_pos h1, true_iff]
        have : (x.toNat - 48) + 1 ≤ y.toNat - 48 := by omega
        calc (x.toNat - 48) * 10 ^ ys.length + parseDigits xs
            < (x.toNat - 48) * 10 ^ ys.length + 10 ^ ys.length := by
              rw [hlen'] at hpx; omega
          _ = ((x.toNat - 48) + 1) * 10 ^ ys.length := by ring
          _ ≤ (y.toNat - 48) * 10 ^ ys.length :=
              Nat.mul_le_mul_right _ this
          _ ≤ (y.toNat - 48) * 10 ^ ys.length + parseDigits ys := by omega
      · by_cases h2 : y.toNat < x.toNat
        · have hstep : (y.toNat - 48) + 1 ≤ x.toNat - 48 := by omega
          have hlt : (y.toNat - 48) * 10 ^ ys.length + parseDigits ys <
              (x.toNat - 48) * 10 ^ ys.length + parseDigits xs := by
            calc (y.toNat - 48) * 10 ^ ys.length + parseDigits ys
                < (y.toNat - 48) * 10 ^ ys.length + 10 ^ ys.length := by
                  omega
              _ = ((y.toNat - 48) + 1) * 10 ^ ys.length := by ring
              _ ≤ (x.toNat - 48) * 10 ^ ys.length :=
                  Nat.mul_le_mul_right _ hstep
              _ ≤ (x.toNat - 48) * 10 ^ ys.length + parseDigits xs := by
                  omega
          simp only [listLtCh, if_neg h1, if_pos h2, Bool.false_eq_true,
            false_iff, not_lt]
          exact le_of_lt hlt
        · have hxy : x.toNat = y.toNat := by omega
          simp only [listLtCh, if_neg h1, if_neg h2]
          rw [ih ys hlen' hxs hys, hxy]
          exact (Iff.symm (add_lt_add_iff_left _))

/-! ## The maximum matching order number -/

/-- Largest element of a list of sequence numbers (0 when empty). -/
def maxNat (l : List Nat) : Nat := l.foldl Nat.max 0

lemma foldl_max_init_le (l : List Nat) (a : Nat) :
    a ≤ l.foldl Nat.max a := by
  induction l generalizing a with
  | nil => exact le_rfl
  | cons x l ih =>
    exact le_trans (Nat.le_max_left a x) (ih (Nat.max a x))

lemma le_foldl_max (l : List Nat) (a s : Nat) (hs : s ∈ l) :
    s ≤ l.foldl Nat.max a := by
  induction l generalizing a with
  | nil => simp at hs
  | cons x l ih =>
    rcases List.mem_cons.mp hs with h | h
    · subst h
      exact le_trans (Nat.le_max_right a s) (foldl_max_init_le l _)
    · exact ih _ h

lemma foldl_max_le (l : List Nat) (a B : Nat) (ha : a ≤ B)
    (h : ∀ s ∈ l, s ≤ B) : l.foldl Nat.max a ≤ B := by
  induction l generalizing a with
  | nil => simpa
  | cons x l ih =>
    exact ih (Nat.max a x)
      (Nat.max_le.mpr ⟨ha, h x (List.mem_cons_self _ _)⟩)
      (fun s hs => h s (List.mem_cons_of_mem _ hs))

lemma le_maxNat (l : List Nat) (s : Nat) (hs : s ∈ l) : s ≤ maxNat l :=
  le_foldl_max l 0 s hs

lemma maxNat_le (l : List Nat) (B : Nat) (h : ∀ s ∈ l, s ≤ B) :
    maxNat l ≤ B :=
  foldl_max_le l 0 B (Nat.zero_le B) h

lemma fmtOrderNumber_eq_append (dStr : List Char) (n : Nat) :
    fmtOrderNumber dStr n = ('V' :: 'C' :: dStr) ++ pad4 n := by
  simp [fmtOrderNumber]

lemma fmtOrderNumber_lt_iff (dStr : List Char) (a b : Nat)
    (ha : a ≤ 9999) (hb : b ≤ 9999) :
    (listLtCh (fmtOrderNumber dStr a) (fmtOrderNumber dStr b) = true ↔
      a < b) := by
  rw [fmtOrderNumber_eq_append, fmtOrderNumber_eq_append,
    listLtCh_append_left]
  rw [listLtCh_iff_parse_lt (pad4 a) (pad4 b)
    (by rw [pad4_length a ha, pad4_length b hb])
    (pad4_digits a ha) (pad4_digits b hb)]
  rw [parseDigits_pad4 a ha, parseDigits_pad4 b hb]

lemma fmtOrderNumber_drop_last4 (dStr : List Char) (n : Nat)
    (h : n ≤ 9999) :
    (fmtOrderNumber dStr n).drop ((fmtOrderNumber dStr n).length - 4) =
      pad4 n := by
  rw [fmtOrderNumber_eq_append]
  have hlen : (('V' :: 'C' :: dStr) ++ pad4 n).length =
      ('V' :: 'C' :: dStr).length + 4 := by
    simp [pad4_length n h]
  rw [hlen]
  have : ('V' :: 'C' :: dStr).length + 4 - 4 =
      ('V' :: 'C' :: dStr).length := by omega
  rw [this, List.drop_left]

lemma maxString_fold_fmt (dStr : List Char) (seqs : List Nat) (m : Nat)
    (hm : m ≤ 9999) (hall : ∀ s ∈ seqs, s ≤ 9999) :
    (seqs.map (fmtOrderNumber dStr)).foldl
      (fun acc s =>
        match acc with
        | none => some s
        | some t => if listLtCh t s then some s else some t)
      (some (fmtOrderNumber dStr m)) =
    some (fmtOrderNumber dStr (seqs.foldl Nat.max m)) := by
  induction seqs generalizing m with
  | nil => rfl
  | cons s rest ih =>
    have hs : s ≤ 9999 := hall s (List.mem_cons_self _ _)
    have hrest : ∀ s' ∈ rest, s' ≤ 9999 :=
      fun s' hs' => hall s' (List.mem_cons_of_mem _ hs')
    simp only [List.map_cons, List.foldl_cons]
    by_cases hms : m < s
    · have hlt : listLtCh (fmtOrderNumber dStr m) (fmtOrderNumber dStr s) =
          true := (fmtOrderNumber_lt_iff dStr m s hm hs).mpr hms
      rw [hlt]
      simp only [if_true]
      have hmax : Nat.max m s = s := Nat.max_eq_right (le_of_lt hms)
      rw [hmax]
      exact ih s hs hrest
    · have hlt : listLtCh (fmtOrderNumber dStr m) (fmtOrderNumber dStr s) =
          false := by
        rw [Bool.eq_false_iff]
        intro hcon
        exact hms ((fmtOrderNumber_lt_iff dStr m s hm hs).mp hcon)
      rw [hlt]
      simp only [Bool.false_eq_true, if_false]
      have hmax : Nat.max m s = m := Nat.max_eq_left (by omega)
      rw [hmax]
      exact ih m hm hrest

lemma maxString_map_fmt (dStr : List Char) (seqs : List Nat)
    (hne : seqs ≠ []) (hall : ∀ s ∈ seqs, s ≤ 9999) :
    maxString (seqs.map (fmtOrderNumber dStr)) =
      some (fmtOrderNumber dStr (maxNat seqs)) := by
  cases seqs with
  | nil => exact absurd rfl hne
  | cons s rest =>
    have hs : s ≤ 9999 := hall s (List.mem_cons_self _ _)
    have hrest : ∀ s' ∈ rest, s' ≤ 9999 :=
      fun s' hs' => hall s' (List.mem_cons_of_mem _ hs')
    unfold maxString
    simp only [List.map_cons, List.foldl_cons]
    have hfirst : maxNat (s :: rest) = rest.foldl Nat.max s := by
      unfold maxNat
      simp [List.foldl_cons, Nat.zero_max]
    rw [hfirst]
    exact maxString_fold_fmt dStr rest s hs hrest

lemma preSave_none_of_matching (existing : List (List Char))
    (dStr : List Char) (seqs : List Nat) (hne : seqs ≠ [])
    (hall : ∀ s ∈ seqs, s ≤ 9999)
    (hmatch : existing.filter
        (fun s => startsWithCh ('V' :: 'C' :: dStr) s) =
      seqs.map (fmtOrderNumber dStr)) :
    preSaveOrderNumber existing dStr none =
      fmtOrderNumber dStr (maxNat seqs + 1) := by
  have hmax : maxNat seqs ≤ 9999 := maxNat_le seqs 9999 hall
  unfold preSaveOrderNumber
  simp only [hmatch, maxString_map_fmt dStr seqs hne hall,
    fmtOrderNumber_drop_last4 dStr (maxNat seqs) hmax,
    parseDigits_pad4 (maxNat seqs) hmax]

lemma preSave_none_of_no_match (existing : List (List Char))
    (dStr : List Char)
    (hmatch : existing.filter
        (fun s => startsWithCh ('V' :: 'C' :: dStr) s) = []) :
    preSaveOrderNumber existing dStr none = fmtOrderNumber dStr 1 := by
  unfold preSaveOrderNumber
  simp only [hmatch]
  rfl

/-! ## Helper lemmas about the participant list -/

lemma hasVendor_false_iff (ps : List Participant) (v : String) :
    hasVendor ps v = false ↔ ∀ p ∈ ps, p.vendor ≠ v := by
  simp [hasVendor, List.any_eq_false]

lemma removeFirst_append_single (ps : List Participant) (v : String)
    (q : Int) (h : hasVendor ps v = false) :
    removeFirst v (ps ++ [{ vendor := v, quantity := q }]) =
      some (q, ps) := by
  induction ps with
  | nil => simp [removeFirst]
  | cons p rest ih =>
    rw [hasVendor_false_iff] at h
    have hp : p.vendor ≠ v := h p (List.mem_cons_self _ _)
    have hrest : hasVendor rest v = false :=
      (hasVendor_false_iff rest v).mpr
        (fun p' hp' => h p' (List.mem_cons_of_mem _ hp'))
    simp [removeFirst, hp, ih hrest]

lemma hasVendor_true_of_filter_single (ps : List Participant) (v : String)
    (q : Int)
    (h : ps.filter (fun p => p.vendor = v) = [{ vendor := v, quantity := q }]) :
    hasVendor ps v = true := by
  have hmem : ({ vendor := v, quantity := q } : Participant) ∈
      ps.filter (fun p => p.vendor = v) := by
    rw [h]; exact List.mem_singleton.mpr rfl
  rw [List.mem_filter] at hmem
  simp only [hasVendor, List.any_eq_true]
  exact ⟨_, hmem.1, hmem.2⟩

lemma hasVendor_false_of_filter_nil (ps : List Participant) (v : String)
    (h : ps.filter (fun p => p.vendor = v) = []) :
    hasVendor ps v = false := by
  rw [hasVendor_false_iff]
  intro p hp hv
  have : p ∈ ps.filter (fun p => p.vendor = v) :=
    List.mem_filter.mpr ⟨hp, by simpa using hv⟩
  simp [h] at this

lemma filter_addQtyToFirst_single (v : String) (q₁ q₂ : Int)
    (ps : List Participant)
    (h : ps.filter (fun p => p.vendor = v) = [{ vendor := v, quantity := q₁ }]) :
    (addQtyToFirst v q₂ ps).filter (fun p => p.vendor = v) =
      [{ vendor := v, quantity := q₁ + q₂ }] := by
  induction ps with
  | nil => simp at h
  | cons p rest ih =>
    by_cases hv : p.vendor = v
    · rw [List.filter_cons_of_pos (by simpa using hv)] at h
      have hp : p = { vendor := v, quantity := q₁ } :=
        (List.cons_eq_cons.mp h).1
      have hrest : rest.filter (fun p => p.vendor = v) = [] :=
        (List.cons_eq_cons.mp h).2
      subst hp
      simp [addQtyToFirst, List.filter_cons, hrest]
    · rw [List.filter_cons_of_neg (by simpa using hv)] at h
      have step : addQtyToFirst v q₂ (p :: rest) =
          p :: addQtyToFirst v q₂ rest := by
        simp [addQtyToFirst, hv]
      rw [step, List.filter_cons_of_neg (by simpa using hv)]
      exact ih h

/-! ## Sample states used by the witnesses -/

/-- A fresh group order: target 100, nobody joined yet. -/
def gFresh : GroupOrder :=
  { targetQuantity := 100, currentQuantity := 0, maxParticipants := 50,
    participants := [], status := GStatus.active, deadline := 1000 }

/-- A group order with one participant `v1` holding quantity 10. -/
def gOneV1 : GroupOrder :=
  { targetQuantity := 100, currentQuantity := 10, maxParticipants := 50,
    participants := [{ vendor := "v1", quantity := 10 }],
    status := GStatus.active, deadline := 1000 }

/-- An already-ordered group order with one participant `v2`. -/
def gOrdered : GroupOrder :=
  { targetQuantity := 5, currentQuantity := 5, maxParticipants := 50,
    participants := [{ vendor := "v2", quantity := 5 }],
    status := GStatus.ordered, deadline := 100 }

/-- A full group order: `maxParticipants = 1` and one participant `v2`. -/
def gFull : GroupOrder :=
  { targetQuantity := 100, currentQuantity := 5, maxParticipants := 1,
    participants := [{ vendor := "v2", quantity := 5 }],
    status := GStatus.active, deadline := 1000 }

/-- An `active` group order that already sits exactly at its target
(`currentQuantity = targetQuantity = 5`) with participant `v2`. -/
def gAtTarget : GroupOrder :=
  { targetQuantity := 5, currentQuantity := 5, maxParticipants := 50,
    participants := [{ vendor := "v2", quantity := 5 }],
    status := GStatus.active, deadline := 100 }

/-! ## Claims -/

/-- C2: if `currentQuantity` equals the sum of all participant
quantities, then it still does after any `addParticipant (vendorId,
quantity)` and after any `removeParticipant vendorId`, whether the vendor
is present or absent and whether or not the target is reached. -/
theorem claim_C2_quantity_invariant_preserved (g : GroupOrder)
    (h : QuantityInv g) (v : String) (q : Int) :
    QuantityInv (addParticipant g v q) ∧
      QuantityInv (removeParticipant g v) := by
  constructor
  · unfold QuantityInv at h ⊢
    unfold addParticipant
    by_cases hv : hasVendor g.participants v
    · simp only [hv, if_pos]
      simp [sumQuantities_addQtyToFirst v q g.participants hv, h]
    · simp only [Bool.not_eq_true] at hv
      simp [hv, sumQuantities_append, sumQuantities, h]
  · unfold QuantityInv at h ⊢
    unfold removeParticipant
    cases hrem : removeFirst v g.participants with
    | none => simpa using h
    | some r =>
      obtain ⟨rq, ps'⟩ := r
      simp only []
      have := sumQuantities_removeFirst v g.participants rq ps' hrem
      simp [this, h]

/-- C2 witness: the invariant holds for the fresh state and is preserved
by a join of `v1` with quantity 10 and a leave of `v1`. -/
theorem claim_C2_quantity_invariant_preserved_witness :
    QuantityInv (addParticipant gFresh "v1" 10) ∧
      QuantityInv (removeParticipant gFresh "v1") :=
  claim_C2_quantity_invariant_preserved gFresh (by decide) "v1" 10

/-- C3 counterexample: the claim as stated is false on the code.  The
`active` group order `gAtTarget` already sits at its target
(`currentQuantity = targetQuantity = 5`, participant `v2`, so the
quantity invariant holds), and `v1` is not a participant.
`addParticipant "v1" 1` crosses the target and sets `target_reached`,
but the immediately subsequent `removeParticipant "v1"` brings
`currentQuantity` back to 5, which is not below the target, so the
status stays `target_reached` instead of resetting to `active`. -/
theorem claim_C3_counterexample :
    gAtTarget.status = GStatus.active ∧
    hasVendor gAtTarget.participants "v1" = false ∧
    gAtTarget.currentQuantity + 1 ≥ gAtTarget.targetQuantity ∧
    (addParticipant gAtTarget "v1" 1).status = GStatus.target_reached ∧
    (removeParticipant (addParticipant gAtTarget "v1" 1) "v1").status ≠
      GStatus.active := by
  decide

/-- C3 (amended: additionally require that the prior `currentQuantity`
is below `targetQuantity`, i.e. that the leave actually drops the
quantity below target — exactly the spec's "leave that drops below
target"): for an `active` group order with `currentQuantity <
targetQuantity` and `v` not among its participants, `addParticipant (v,
q)` with `currentQuantity + q ≥ targetQuantity` sets `target_reached`,
and the immediately subsequent `removeParticipant v` removes `v`'s
entire entry, restores `currentQuantity`, and resets the status to
`active`; moreover the `target_reached → active` reset never fires from
`ordered`, `delivered` or `cancelled`. -/
theorem claim_C3_target_reached_toggle :
    (∀ (g : GroupOrder) (v : String) (q : Int),
      g.status = GStatus.active →
      hasVendor g.participants v = false →
      g.currentQuantity < g.targetQuantity →
      g.currentQuantity + q ≥ g.targetQuantity →
      (addParticipant g v q).status = GStatus.target_reached ∧
      (removeParticipant (addParticipant g v q) v).participants =
        g.participants ∧
      (removeParticipant (addParticipant g v q) v).currentQuantity =
        g.currentQuantity ∧
      (removeParticipant (addParticipant g v q) v).status =
        GStatus.active) ∧
    (∀ (g : GroupOrder) (v : String),
      g.status = GStatus.ordered ∨ g.status = GStatus.delivered ∨
        g.status = GStatus.cancelled →
      (removeParticipant g v).status = g.status) := by
  constructor
  · intro g v q hst hnv hlt hge
    have hadd :
        addParticipant g v q =
          { g with
              participants :=
                g.participants ++ [{ vendor := v, quantity := q }],
              currentQuantity := g.currentQuantity + q,
              status := GStatus.target_reached } := by
      unfold addParticipant
      simp [hnv, hst, hge]
    rw [hadd]
    refine ⟨rfl, ?_⟩
    unfold removeParticipant
    simp only [removeFirst_append_single g.participants v q hnv]
    simp [hlt]
  · intro g v hst
    unfold removeParticipant
    cases hrem : removeFirst v g.participants with
    | none => rfl
    | some r =>
      obtain ⟨rq, ps'⟩ := r
      have : g.status ≠ GStatus.target_reached := by
        rcases hst with h | h | h <;> simp [h]
      simp [this]

/-- C3 witness: the amended claim at the concrete scenario of the spec:
`targetQuantity = 100`, `join(v1, 100)` reaches the target,
`leave(v1)` restores quantity 0 and status `active`; and a
`removeParticipant` on an `ordered` group order keeps status `ordered`.
-/
theorem claim_C3_target_reached_toggle_witness :
    ((addParticipant gFresh "v1" 100).status = GStatus.target_reached ∧
     (removeParticipant (addParticipant gFresh "v1" 100) "v1").participants =
       gFresh.participants ∧
     (removeParticipant (addParticipant gFresh "v1" 100) "v1").currentQuantity =
       gFresh.currentQuantity ∧
     (removeParticipant (addParticipant gFresh "v1" 100) "v1").status =
       GStatus.active) ∧
    (removeParticipant gOrdered "v2").status = gOrdered.status :=
  ⟨claim_C3_target_reached_toggle.1 gFresh "v1" 100 (by decide) (by decide)
      (by decide) (by decide),
   claim_C3_target_reached_toggle.2 gOrdered "v2" (Or.inl (by decide))⟩

/-- C4: `addParticipant` accumulates instead of duplicating: when the
participant list holds exactly one entry for `v` (with quantity `q₁`),
`addParticipant (v, q₂)` leaves exactly one entry for `v`, now with
quantity `q₁ + q₂`, and the number of entries is unchanged; when `v` is
absent it appends exactly one new entry with the given quantity. -/
theorem claim_C4_join_accumulates :
    (∀ (g : GroupOrder) (v : String) (q₁ q₂ : Int),
      g.participants.filter (fun p => p.vendor = v) =
        [{ vendor := v, quantity := q₁ }] →
      (addParticipant g v q₂).participants.filter (fun p => p.vendor = v) =
        [{ vendor := v, quantity := q₁ + q₂ }] ∧
      (addParticipant g v q₂).participants.length =
        g.participants.length) ∧
    (∀ (g : GroupOrder) (v : String) (q : Int),
      g.participants.filter (fun p => p.vendor = v) = [] →
      (addParticipant g v q).participants =
        g.participants ++ [{ vendor := v, quantity := q }]) := by
  constructor
  · intro g v q₁ q₂ h
    have hv : hasVendor g.participants v = true :=
      hasVendor_true_of_filter_single g.participants v q₁ h
    have hpart : (addParticipant g v q₂).participants =
        addQtyToFirst v q₂ g.participants := by
      unfold addParticipant
      simp [hv]
    rw [hpart]
    exact ⟨filter_addQtyToFirst_single v q₁ q₂ g.participants h,
      length_addQtyToFirst v q₂ g.participants⟩
  · intro g v q h
    have hv : hasVendor g.participants v = false :=
      hasVendor_false_of_filter_nil g.participants v h
    unfold addParticipant
    simp [hv]

/-- C4 witness: on a group order whose only `v1` entry holds quantity
10, joining again with 15 yields the single entry `⟨v1, 25⟩` (the spec's
join(v1,10)-then-join(v1,15) example); and on a fresh group order
joining `v1` with 10 appends exactly that entry. -/
theorem claim_C4_join_accumulates_witness :
    ((addParticipant gOneV1 "v1" 15).participants.filter
        (fun p => p.vendor = "v1") =
      [{ vendor := "v1", quantity := 25 }] ∧
     (addParticipant gOneV1 "v1" 15).participants.length =
       gOneV1.participants.length) ∧
    (addParticipant gFresh "v1" 10).participants =
      gFresh.participants ++ [{ vendor := "v1", quantity := 10 }] :=
  ⟨by
    have := claim_C4_join_accumulates.1 gOneV1 "v1" 10 15 (by decide)
    simpa using this,
   claim_C4_join_accumulates.2 gFresh "v1" 10 (by decide)⟩

/-- C6: the number of distinct vendors among the participants never
exceeds `maxParticipants`: any `join` outcome preserves the bound, a
join that would add a new distinct vendor beyond the cap fails with
`CapacityExceeded` and writes nothing, and a join by an
already-participating vendor is never rejected by the cap. -/
theorem claim_C6_capacity_bound :
    (∀ (g : GroupOrder) (v : String) (q now : Int),
      distinctVendorCount g ≤ g.maxParticipants →
      distinctVendorCount (persisted g (join g v q now)) ≤
        g.maxParticipants) ∧
    (∀ (g : GroupOrder) (v : String) (q now : Int),
      g.status = GStatus.active → now < g.deadline → 1 ≤ q →
      hasVendor g.participants v = false →
      g.maxParticipants ≤ g.participants.length →
      join g v q now = Except.error GError.CapacityExceeded ∧
      persisted g (join g v q now) = g) ∧
    (∀ (g : GroupOrder) (v : String) (q now : Int),
      hasVendor g.participants v = true →
      join g v q now ≠ Except.error GError.CapacityExceeded) := by
  refine ⟨?_, ?_, ?_⟩
  · intro g v q now hcap
    unfold join
    by_cases h1 : g.status ≠ GStatus.active
    · simpa [h1, persisted] using hcap
    · by_cases h2 : ¬ now < g.deadline
      · simpa [h1, h2, persisted] using hcap
      · by_cases h3 : q < 1
        · simpa [h1, h2, h3, persisted] using hcap
        · by_cases h4 : hasVendor g.participants v = false ∧
              g.participants.length ≥ g.maxParticipants
          · simpa [h1, h2, h3, h4, persisted] using hcap
          · simp only [h1, h2, h3, h4, if_neg, if_false, ite_false,
              ite_true, persisted]
            by_cases hv : hasVendor g.participants v
            · have hpart : (addParticipant g v q).participants =
                  addQtyToFirst v q g.participants := by
                unfold addParticipant; simp [hv]
              unfold distinctVendorCount
              rw [hpart, map_vendor_addQtyToFirst]
              exact hcap
            · simp only [Bool.not_eq_true] at hv
              have hlen : g.participants.length < g.maxParticipants := by
                rcases not_and_or.mp h4 with hc | hc
                · exact absurd hv hc
                · exact lt_of_not_ge hc
              have hpart : (addParticipant g v q).participants =
                  g.participants ++ [{ vendor := v, quantity := q }] := by
                unfold addParticipant; simp [hv]
              unfold distinctVendorCount
              rw [hpart]
              have hsub := List.Sublist.length_le
                (List.dedup_sublist ((g.participants ++
                  [({ vendor := v, quantity := q } : Participant)]).map
                    Participant.vendor))
              have hlen2 : ((g.participants ++
                  [({ vendor := v, quantity := q } : Participant)]).map
                    Participant.vendor).length =
                  g.participants.length + 1 := by simp
              omega
  · intro g v q now h1 h2 h3 h4 h5
    have hjoin : join g v q now = Except.error GError.CapacityExceeded := by
      unfold join
      rw [if_neg (by simp [h1]), if_neg (by simpa using h2),
        if_neg (by omega), if_pos ⟨h4, h5⟩]
    exact ⟨hjoin, by rw [hjoin]; rfl⟩
  · intro g v q now hv
    unfold join
    by_cases h1 : g.status ≠ GStatus.active
    · simp [h1]
    · by_cases h2 : ¬ now < g.deadline
      · simp [h1, h2]
      · by_cases h3 : q < 1
        · simp [h1, h2, h3]
        · rw [if_neg h1, if_neg h2, if_neg h3,
            if_neg (by simp [hv] : ¬ (hasVendor g.participants v = false ∧
              g.participants.length ≥ g.maxParticipants))]
          simp

/-- C6 witness: the bound is preserved when `v1` joins the fresh order;
a new vendor `v1` joining the full order `gFull` (cap 1, one existing
participant `v2`) is rejected with `CapacityExceeded` and nothing is
written; and the existing participant `v2` of `gFull` is not rejected by
the cap. -/
theorem claim_C6_capacity_bound_witness :
    (distinctVendorCount (persisted gFresh (join gFresh "v1" 10 0)) ≤
      gFresh.maxParticipants) ∧
    (join gFull "v1" 10 0 = Except.error GError.CapacityExceeded ∧
      persisted gFull (join gFull "v1" 10 0) = gFull) ∧
    join gFull "v2" 10 0 ≠ Except.error GError.CapacityExceeded :=
  ⟨claim_C6_capacity_bound.1 gFresh "v1" 10 0 (by decide),
   claim_C6_capacity_bound.2.1 gFull "v1" 10 0 (by decide) (by decide)
     (by decide) (by decide) (by decide),
   claim_C6_capacity_bound.2.2 gFull "v2" 10 0 (by decide)⟩

/-- C7: a join on a non-`active` group order fails with `OrderClosed`;
a join on an `active` group order at or past the deadline fails with
`DeadlinePassed`; and whenever any precondition (`status == active`,
`now < deadline`, `quantity >= 1`) is violated the join fails and no
state is written — participants, `currentQuantity` and status are all
unchanged. -/
theorem claim_C7_join_preconditions :
    (∀ (g : GroupOrder) (v : String) (q now : Int),
      g.status ≠ GStatus.active →
      join g v q now = Except.error GError.OrderClosed) ∧
    (∀ (g : GroupOrder) (v : String) (q now : Int),
      g.status = GStatus.active → g.deadline ≤ now →
      join g v q now = Except.error GError.DeadlinePassed) ∧
    (∀ (g : GroupOrder) (v : String) (q now : Int),
      (g.status ≠ GStatus.active ∨ g.deadline ≤ now ∨ q < 1) →
      (∃ e, join g v q now = Except.error e) ∧
      persisted g (join g v q now) = g) := by
  refine ⟨?_, ?_, ?_⟩
  · intro g v q now h1
    unfold join
    rw [if_pos h1]
  · intro g v q now h1 h2
    unfold join
    rw [if_neg (by simp [h1]), if_pos (by omega)]
  · intro g v q now h
    by_cases h1 : g.status ≠ GStatus.active
    · have hj : join g v q now = Except.error GError.OrderClosed := by
        unfold join; rw [if_pos h1]
      exact ⟨⟨_, hj⟩, by rw [hj]; rfl⟩
    · by_cases h2 : g.deadline ≤ now
      · have hj : join g v q now = Except.error GError.DeadlinePassed := by
          unfold join; rw [if_neg h1, if_pos (by omega)]
        exact ⟨⟨_, hj⟩, by rw [hj]; rfl⟩
      · have h3 : q < 1 := by tauto
        have hj : join g v q now = Except.error GError.ValidationError := by
          unfold join; rw [if_neg h1, if_neg (by omega), if_pos h3]
        exact ⟨⟨_, hj⟩, by rw [hj]; rfl⟩

/-- C7 witness: joining the ordered group order fails with
`OrderClosed`; joining the fresh order at `now = 2000` (past its
deadline 1000) fails with `DeadlinePassed`; and a join with quantity 0
fails and writes nothing. -/
theorem claim_C7_join_preconditions_witness :
    join gOrdered "v1" 10 0 = Except.error GError.OrderClosed ∧
    join gFresh "v1" 10 2000 = Except.error GError.DeadlinePassed ∧
    ((∃ e, join gFresh "v1" 0 0 = Except.error e) ∧
      persisted gFresh (join gFresh "v1" 0 0) = gFresh) :=
  ⟨claim_C7_join_preconditions.1 gOrdered "v1" 10 0 (by decide),
   claim_C7_join_preconditions.2.1 gFresh "v1" 10 2000 (by decide)
     (by decide),
   claim_C7_join_preconditions.2.2 gFresh "v1" 0 0
     (Or.inr (Or.inr (by decide)))⟩

/-- C8: a leave by a vendor with no entry in the participant list fails
with `NotAParticipant` and produces no state change. -/
theorem claim_C8_leave_not_a_participant (g : GroupOrder) (v : String)
    (h : hasVendor g.participants v = false) :
    leave g v = Except.error GError.NotAParticipant ∧
      persisted g (leave g v) = g := by
  have hleave : leave g v = Except.error GError.NotAParticipant := by
    unfold leave
    rw [if_pos h]
  exact ⟨hleave, by rw [hleave]; rfl⟩

/-- C8 witness: `v9` is not a participant of `gOneV1`, and its leave
fails with `NotAParticipant` leaving the state untouched. -/
theorem claim_C8_leave_not_a_participant_witness :
    leave gOneV1 "v9" = Except.error GError.NotAParticipant ∧
      persisted gOneV1 (leave gOneV1 "v9") = gOneV1 :=
  claim_C8_leave_not_a_participant gOneV1 "v9" (by decide)

/-- C9: a leave on a group order whose status is `ordered`, `delivered`
or `cancelled` fails and leaves the state unchanged; when the vendor
currently participates the failure is `OrderLocked`; and a leave can
only succeed while the status is `active` or `target_reached`. -/
theorem claim_C9_leave_order_locked :
    (∀ (g : GroupOrder) (v : String),
      (g.status = GStatus.ordered ∨ g.status = GStatus.delivered ∨
        g.status = GStatus.cancelled) →
      (∃ e, leave g v = Except.error e) ∧
      persisted g (leave g v) = g) ∧
    (∀ (g : GroupOrder) (v : String),
      (g.status = GStatus.ordered ∨ g.status = GStatus.delivered ∨
        g.status = GStatus.cancelled) →
      hasVendor g.participants v = true →
      leave g v = Except.error GError.OrderLocked) ∧
    (∀ (g : GroupOrder) (v : String) (g' : GroupOrder),
      leave g v = Except.ok g' →
      g.status = GStatus.active ∨ g.status = GStatus.target_reached) := by
  refine ⟨?_, ?_, ?_⟩
  · intro g v hst
    by_cases hv : hasVendor g.participants v = false
    · have hl : leave g v = Except.error GError.NotAParticipant := by
        unfold leave; rw [if_pos hv]
      exact ⟨⟨_, hl⟩, by rw [hl]; rfl⟩
    · have hl : leave g v = Except.error GError.OrderLocked := by
        unfold leave; rw [if_neg hv, if_pos hst]
      exact ⟨⟨_, hl⟩, by rw [hl]; rfl⟩
  · intro g v hst hv
    unfold leave
    rw [if_neg (by simp [hv]), if_pos hst]
  · intro g v g' hok
    unfold leave at hok
    by_cases hv : hasVendor g.participants v = false
    · rw [if_pos hv] at hok; exact Except.noConfusion hok
    · by_cases hst : g.status = GStatus.ordered ∨
          g.status = GStatus.delivered ∨ g.status = GStatus.cancelled
      · rw [if_neg hv, if_pos hst] at hok; exact Except.noConfusion hok
      · cases hs : g.status with
        | active => exact Or.inl rfl
        | target_reached => exact Or.inr rfl
        | ordered => exact absurd (Or.inl hs) hst
        | delivered => exact absurd (Or.inr (Or.inl hs)) hst
        | cancelled => exact absurd (Or.inr (Or.inr hs)) hst

/-- C9 witness: on the ordered group order `gOrdered`, a leave by the
participating vendor `v2` fails with `OrderLocked` and nothing changes.
-/
theorem claim_C9_leave_order_locked_witness :
    ((∃ e, leave gOrdered "v2" = Except.error e) ∧
      persisted gOrdered (leave gOrdered "v2") = gOrdered) ∧
    leave gOrdered "v2" = Except.error GError.OrderLocked :=
  ⟨claim_C9_leave_order_locked.1 gOrdered "v2" (Or.inl (by decide)),
   claim_C9_leave_order_locked.2.1 gOrdered "v2" (Or.inl (by decide))
     (by decide)⟩

/-- C10: when every bulk discount lies between 0 and 100 percent (and
the base price is non-negative, as the schema's `min: 0` enforces),
`getBulkPrice` is monotonically non-increasing in the quantity, never
exceeds the base price, is never negative, and equals the base price
exactly when no discount's `minQuantity` is met. -/
theorem claim_C10_bulk_price_properties (p : Product)
    (hp : 0 ≤ p.price)
    (hd : ∀ d ∈ p.bulkDiscounts,
      0 ≤ d.discountPercentage ∧ d.discountPercentage ≤ 100) :
    (∀ q₁ q₂ : ℚ, q₁ ≤ q₂ → getBulkPrice p q₂ ≤ getBulkPrice p q₁) ∧
    (∀ q : ℚ, getBulkPrice p q ≤ p.price) ∧
    (∀ q : ℚ, 0 ≤ getBulkPrice p q) ∧
    (∀ q : ℚ, (∀ d ∈ p.bulkDiscounts, q < d.minQuantity) →
      getBulkPrice p q = p.price) := by
  refine ⟨?_, ?_, ?_, ?_⟩
  · intro q₁ q₂ hq
    unfold getBulkPrice
    have hmono := applicableDiscount_mono p q₁ q₂ hq
    have : 1 - applicableDiscount p q₂ / 100 ≤
        1 - applicableDiscount p q₁ / 100 := by linarith
    exact mul_le_mul_of_nonneg_left this hp
  · intro q
    unfold getBulkPrice
    have h0 := applicableDiscount_nonneg p q
    have : 1 - applicableDiscount p q / 100 ≤ 1 := by linarith
    calc p.price * (1 - applicableDiscount p q / 100)
        ≤ p.price * 1 := mul_le_mul_of_nonneg_left this hp
      _ = p.price := mul_one _
  · intro q
    unfold getBulkPrice
    have h100 := applicableDiscount_le_hundred p q
      (fun d hd' => (hd d hd').2)
    have : 0 ≤ 1 - applicableDiscount p q / 100 := by linarith
    exact mul_nonneg hp this
  · intro q hq
    unfold getBulkPrice
    rw [applicableDiscount_eq_zero p q hq]
    norm_num

/-- A concrete product for the C10 witness: base price 100, 5% off from
quantity 10 and 10% off from quantity 50. -/
def prodSample : Product :=
  { price := 100,
    bulkDiscounts :=
      [{ minQuantity := 10, discountPercentage := 5 },
       { minQuantity := 50, discountPercentage := 10 }] }

/-- C10 witness: on `prodSample` the bulk price at quantity 60 is at
most the one at quantity 20, the price at quantity 200 does not exceed
the base price, no bulk price is negative, and quantity 5 (below every
`minQuantity`) pays exactly the base price. -/
theorem claim_C10_bulk_price_properties_witness :
    getBulkPrice prodSample 60 ≤ getBulkPrice prodSample 20 ∧
    getBulkPrice prodSample 200 ≤ prodSample.price ∧
    0 ≤ getBulkPrice prodSample 200 ∧
    getBulkPrice prodSample 5 = prodSample.price := by
  have h := claim_C10_bulk_price_properties prodSample
    (by norm_num [prodSample])
    (by
      intro d hd
      simp only [prodSample, List.mem_cons, List.mem_singleton] at hd
      rcases hd with h | h | h
      · rw [h]; norm_num
      · rw [h]; norm_num
      · exact absurd h (by simp))
  refine ⟨h.1 20 60 (by norm_num), h.2.1 200, h.2.2.1 200, ?_⟩
  refine h.2.2.2 5 ?_
  intro d hd
  simp only [prodSample, List.mem_cons, List.mem_singleton] at hd
  rcases hd with h' | h' | h'
  · rw [h']; norm_num
  · rw [h']; norm_num
  · exact absurd h' (by simp)

lemma pad2_length (n : Nat) (h : n ≤ 99) : (pad2 n).length = 2 := by
  have hle : (natDigits n).length ≤ 2 :=
    natDigitsF_length_le (n + 1) n 2 (by omega) (by norm_num)
      (by norm_num; omega)
  unfold pad2 padStartCh
  simp [List.length_replicate]
  omega

/-- C1 (evaluating the code at the failing interleaving): the pre-save
hook is a non-atomic read-highest-then-assign; when two concurrent saves
for the same day both run their `findOne` against the same store
snapshot (read-read-write-write), they compute identical order numbers —
for any snapshot and any day.  Concretely, on an empty store for
2024-05-01 both hooks assign `VC202405010001`, so a burst of concurrent
allocations does not yield distinct numbers, there is no retry on
collision, and no `AllocationExhausted` path exists in the hook. -/
theorem claim_C1_concurrent_allocation_duplicates :
    (∀ (existing : List (List Char)) (dStr : List Char),
      (concurrentPreSavePair existing dStr).1 =
        (concurrentPreSavePair existing dStr).2) ∧
    (concurrentPreSavePair [] (dateStr 2024 5 1)).1 =
      "VC202405010001".data ∧
    (concurrentPreSavePair [] (dateStr 2024 5 1)).2 =
      "VC202405010001".data :=
  ⟨fun _ _ => rfl, by decide, by decide⟩

/-- C5 counterexample: the claim as stated is false on the code at the
boundary of the 4-digit sequence space.  With `VC202405019999` already
stored for 2024-05-01, the hook assigns `VC2024050110000`: a
15-character string whose sequence part has five digits, not the claimed
`VC` + 8-digit date + 4-digit zero-padded sequence (14 characters). -/
theorem claim_C5_counterexample :
    preSaveOrderNumber ["VC202405019999".data] (dateStr 2024 5 1) none =
      "VC2024050110000".data ∧
    (preSaveOrderNumber ["VC202405019999".data] (dateStr 2024 5 1)
      none).length = 15 := by
  decide

/-- C5 (amended: restricted to days whose highest existing sequence is
at most 9998, so that the assigned sequence still fits in four digits;
the code otherwise emits a 5-digit sequence): an Order saved with an
`orderNumber` keeps it unchanged; when no order exists for the day the
hook assigns sequence 1; when the day's existing numbers are the
well-formed `VC<date><4-digit>` strings of sequences `seqs` (each at
most 9998) the hook assigns exactly `VC` + date + the 4-digit
zero-padded `maxNat seqs + 1`, one greater than the highest existing
sequence and strictly greater than every existing sequence (monotone
within the day); and the assigned string is `VC` followed by the 8-digit
date and the 4-digit zero-padded sequence. -/
theorem claim_C5_order_number_assignment :
    (∀ (existing : List (List Char)) (dStr cur : List Char),
      preSaveOrderNumber existing dStr (some cur) = cur) ∧
    (∀ (existing : List (List Char)) (dStr : List Char),
      existing.filter (fun s => startsWithCh ('V' :: 'C' :: dStr) s) =
        [] →
      preSaveOrderNumber existing dStr none = fmtOrderNumber dStr 1) ∧
    (∀ (existing : List (List Char)) (dStr : List Char)
        (seqs : List Nat),
      seqs ≠ [] → (∀ s ∈ seqs, s ≤ 9998) →
      existing.filter (fun s => startsWithCh ('V' :: 'C' :: dStr) s) =
        seqs.map (fmtOrderNumber dStr) →
      preSaveOrderNumber existing dStr none =
        fmtOrderNumber dStr (maxNat seqs + 1) ∧
      (∀ s ∈ seqs, s < maxNat seqs + 1)) ∧
    (∀ (year month day seq : Nat),
      1000 ≤ year → year ≤ 9999 → month ≤ 99 → day ≤ 99 →
      1 ≤ seq → seq ≤ 9999 →
      (dateStr year month day).length = 8 ∧
      (pad4 seq).length = 4 ∧
      (∀ c ∈ pad4 seq, 48 ≤ c.toNat ∧ c.toNat ≤ 57) ∧
      fmtOrderNumber (dateStr year month day) seq =
        'V' :: 'C' :: (dateStr year month day ++ pad4 seq)) := by
  refine ⟨?_, ?_, ?_, ?_⟩
  · intro existing dStr cur
    rfl
  · intro existing dStr h
    exact preSave_none_of_no_match existing dStr h
  · intro existing dStr seqs hne hall hmatch
    have hall' : ∀ s ∈ seqs, s ≤ 9999 :=
      fun s hs => le_trans (hall s hs) (by norm_num)
    refine ⟨preSave_none_of_matching existing dStr seqs hne hall' hmatch,
      ?_⟩
    intro s hs
    have := le_maxNat seqs s hs
    omega
  · intro year month day seq hy1 hy2 hm hd hs1 hs2
    refine ⟨?_, pad4_length seq hs2, pad4_digits seq hs2, rfl⟩
    have hylen : (natDigits year).length = 4 :=
      natDigits_length_eq year 4 (by norm_num)
        (by norm_num; omega) (by norm_num; omega)
    unfold dateStr
    simp [hylen, pad2_length month hm, pad2_length day hd]

/-- C5 witness: an already-assigned number `VC202405010042` is kept; on
an empty store for 2024-05-01 the hook assigns sequence 1; with the
day's order of sequence 1 stored, the next assignment is sequence
`maxNat [1] + 1 = 2`; and the 2024-05-01 date string has 8 digits. -/
theorem claim_C5_order_number_assignment_witness :
    preSaveOrderNumber [] (dateStr 2024 5 1)
        (some ("VC202405010042".data)) = "VC202405010042".data ∧
    preSaveOrderNumber [] (dateStr 2024 5 1) none =
      fmtOrderNumber (dateStr 2024 5 1) 1 ∧
    preSaveOrderNumber [fmtOrderNumber (dateStr 2024 5 1) 1]
        (dateStr 2024 5 1) none =
      fmtOrderNumber (dateStr 2024 5 1) (maxNat [1] + 1) ∧
    (dateStr 2024 5 1).length = 8 :=
  ⟨claim_C5_order_number_assignment.1 [] (dateStr 2024 5 1)
      ("VC202405010042".data),
   claim_C5_order_number_assignment.2.1 [] (dateStr 2024 5 1)
     (by decide),
   (claim_C5_order_number_assignment.2.2.1
     [fmtOrderNumber (dateStr 2024 5 1) 1] (dateStr 2024 5 1) [1]
     (by decide) (by decide) (by decide)).1,
   (claim_C5_order_number_assignment.2.2.2 2024 5 1 7 (by decide)
     (by decide) (by decide) (by decide) (by decide) (by decide)).1⟩
